import Mathlib

/-!
Verification development for the flare-stack-blog posts service.

The TypeScript sources embedded here are `posts.service.ts` (slug
generation, admin sync state, related-post ordering, mutation
workflows), `data/helper.ts` (the public-visibility where-clause) and
`utils/date.ts` (`isFuturePublishDate`).  Collaborators that live
outside the provided sources (the cache service, the post repository,
the cache-key builders, `slugify`, `calculatePostHash`,
`getCurrentMinuteEnd`) are modelled from the specification; each such
definition carries a doc comment saying so.

Times are modelled as natural numbers (milliseconds since epoch).
External actions issued by the service (cache deletes, version bumps,
search-index deletes, CDN purges, workflow calls, deferred media sync)
are recorded in an explicit `Effect` list, in program order.
-/

namespace Blog

/-- Post status from the database schema: `draft`, `published`, or
another non-public state (the schema admits further statuses). -/
inductive PostStatus where
  | draft
  | published
  | archived
  deriving DecidableEq, Repr

/-- A tag row: the service reads tag ids (`post.tags.map(t => t.id)`)
and tag names (tag filters). -/
structure Tag where
  id : Nat
  name : String
  deriving DecidableEq, Repr

/-- A post row with the fields the embedded service code reads:
id, title, slug, status, contentJson (nullable rich document, modelled
as `Option String`), summary, publishedAt (nullable timestamp),
readTimeInMinutes, tags. -/
structure Post where
  id : Nat
  title : String
  slug : String
  status : PostStatus
  contentJson : Option String
  summary : String
  publishedAt : Option Nat
  readTimeInMinutes : Nat
  tags : List Tag
  deriving DecidableEq, Repr

/-- Modelled from the spec: `findPostById` of the post repository —
look up a row by primary key. -/
def findRow (db : List Post) (id : Nat) : Option Post :=
  db.find? (fun p => p.id == id)

/-! ## C3: related-post ordering (`getRelatedPosts`, posts.service.ts 134–147)

The in-source tail of `getRelatedPosts`:
```
const orderedPosts = cachedIds
  .map((id) => posts.find((p) => p.id === id))
  .filter((p): p is NonNullable<typeof p> => !!p);
```
`cachedIds` is the cached related-ID sequence and `posts` is whatever
`PostRepo.getPublicPostsByIds` returned; the claim quantifies over both,
so the reordering step is embedded directly. -/

/-- `getRelatedPosts`' reordering step: map each cached id to the first
resolved post with that id and drop the ids that resolved to nothing. -/
def orderRelated (cachedIds : List Nat) (posts : List Post) : List Post :=
  (cachedIds.map (fun id => posts.find? (fun p => p.id == id))).filterMap (fun x => x)

/-! ## Cache model

The cache service and the `POSTS_CACHE_KEYS` builders live outside the
provided sources and are modelled from the spec (§4.1, §6).  §6 says the
exact separators of the key strings are an implementation choice, so
keys are modelled structurally. -/

/-- Modelled from the spec: `POSTS_CACHE_KEYS` — the four key shapes
`posts:list:<version>:<limit>:<cursor>:<tag>`, `posts:detail:<version>:<slug>`,
`posts:related:<slug>:<limit>`, `posts:sync-hash:<id>` (§6), modelled
structurally since the separators are an implementation choice. -/
inductive CacheKey where
  | list (version limit cursor : Nat) (tag : String)
  | detail (version : Nat) (slug : String)
  | related (slug : String) (limit : Nat)
  | syncHash (id : Nat)
  deriving DecidableEq, Repr

/-- Modelled from the spec: `CacheService.getVersion(ctx, ns)` — return
the namespace's current integer version, creating it at 1 if absent
(§4.1).  Version counters are a finite map from namespace to `Nat`. -/
def getVersion (versions : List (String × Nat)) (ns : String) : Nat :=
  match versions.find? (fun e => e.fst == ns) with
  | some e => e.snd
  | none => 1

/-- Modelled from the spec: `CacheService.bumpVersion(ctx, ns)` —
atomically increment the namespace's version counter (§4.1). -/
def bumpVersion (versions : List (String × Nat)) (ns : String) : List (String × Nat) :=
  (ns, getVersion versions ns + 1) :: versions

/-- Modelled from the spec: a raw cache lookup (`CacheService.getRaw` /
the read half of `get`) — return the value stored under exactly the
given key, `none` when absent (§6). -/
def kvLookup (entries : List (CacheKey × String)) (k : CacheKey) : Option String :=
  match entries.find? (fun e => decide (e.fst = k)) with
  | some e => some e.snd
  | none => none

/-- Modelled from the spec: `getCurrentMinuteEnd` — the current time
rounded up to the end of the current minute ("以分钟为最小单位比较";
§4.3: now is rounded to the end of the current minute).  Times are
milliseconds. -/
def currentMinuteEnd (now : Nat) : Nat :=
  now / 60000 * 60000 + 59999

/-! ## Visibility where-clause (`buildPostWhereClause`, data/helper.ts 10–37) -/

/-- Options of `buildPostWhereClause`. -/
structure WhereOptions where
  status : Option PostStatus
  publicOnly : Bool
  search : Option String
  deriving Repr

/-- `buildPostWhereClause`, as the predicate the produced SQL `AND`
clause denotes on a row: optional exact status match; for `publicOnly`,
`status = 'published'` and `publishedAt <= getCurrentMinuteEnd()` (an
SQL `<=` on a NULL `publishedAt` is not satisfied); optional trimmed
title substring search (`LIKE %term%`), skipped when trimmed empty. -/
def postMatchesWhere (now : Nat) (opts : WhereOptions) (p : Post) : Bool :=
  (match opts.status with
    | some s => decide (p.status = s)
    | none => true)
  && (!opts.publicOnly ||
      (decide (p.status = PostStatus.published) &&
        match p.publishedAt with
        | some t => decide (t ≤ currentMinuteEnd now)
        | none => false))
  && (match opts.search with
      | some s =>
        let term := s.trim
        term.isEmpty || (p.title.splitOn term).length > 1
      | none => true)

/-- Query options of `PostRepo.getPostsCursor`. -/
structure CursorQuery where
  cursor : Nat
  limit : Nat
  publicOnly : Bool
  tagName : Option String
  deriving Repr

/-- Modelled from the spec: `PostRepo.getPostsCursor` — rows satisfying
`buildPostWhereClause` (source, above) and the optional tag filter,
paginated by numeric cursor and limit (§4.3, §6). -/
def repoGetPostsCursor (db : List Post) (now : Nat) (q : CursorQuery) : List Post :=
  ((db.filter (fun p =>
      postMatchesWhere now ⟨none, q.publicOnly, none⟩ p
      && match q.tagName with
         | some t => p.tags.any (fun tg => tg.name == t)
         | none => true)).drop q.cursor).take q.limit

/-- Modelled from the spec: `PostRepo.findPostBySlug` — the row with the
given slug, subject to `buildPostWhereClause` when `publicOnly` (§4.4,
§6). -/
def repoFindPostBySlug (db : List Post) (now : Nat) (slug : String)
    (publicOnly : Bool) : Option Post :=
  db.find? (fun p =>
    p.slug == slug && (!publicOnly || postMatchesWhere now ⟨none, true, none⟩ p))

/-- Modelled from the spec: `CacheService.get` (cache-aside fetch, §4.2)
— on miss invoke the fetcher, store and return its value; on hit return
the previously fetched-and-validated value.  Both ways the caller
receives what the fetcher produces for the key, so the contract is
modelled as transparent pass-through. -/
def cacheAside {α : Type} (_key : CacheKey) (fetcher : Unit → α) : α :=
  fetcher ()

/-- `getPostsCursor` (posts.service.ts 36–67): the public cursor
listing; calls the repository with `publicOnly := true` under a
version-keyed cache-aside fetch. -/
def getPostsCursorSvc (versions : List (String × Nat)) (db : List Post) (now : Nat)
    (limit cursor : Nat) (tagName : Option String) : List Post :=
  cacheAside
    (CacheKey.list (getVersion versions "posts:list") limit cursor (tagName.getD "all"))
    (fun _ => repoGetPostsCursor db now ⟨cursor, limit, true, tagName⟩)

/-- `findPostBySlug` (posts.service.ts 73–104): public detail fetch with
`publicOnly := true` under the versioned detail cache.  The read-time
code highlighting and table-of-contents decoration are external
utilities and do not change which row is returned. -/
def findPostBySlugSvc (versions : List (String × Nat)) (db : List Post) (now : Nat)
    (slug : String) : Option Post :=
  cacheAside
    (CacheKey.detail (getVersion versions "posts:detail") slug)
    (fun _ => repoFindPostBySlug db now slug true)

/-! ## Slug generation (`generateSlug`, posts.service.ts 189–224) -/

/-- Modelled from the spec: `PostRepo.slugExists(db, slug, {excludeId})`
— whether some post other than `excludeId` has exactly this slug
(§4.6: must exclude the post's own ID in the edit case). -/
def slugExists (db : List Post) (slug : String) (excludeId : Option Nat) : Bool :=
  db.any (fun p => p.slug == slug && !(excludeId == some p.id))

/-- Modelled from the spec: `PostRepo.findSimilarSlugs(db, base,
{excludeId})` — the slugs `LIKE 'base-%'` of posts other than
`excludeId` (source comment: 查所有 'hello-world-%' 的).  The prefix
test is on the character sequence of the strings. -/
def findSimilarSlugs (db : List Post) (base : String) (excludeId : Option Nat) : List String :=
  (db.filter (fun p =>
      (base ++ "-").data.isPrefixOf p.slug.data && !(excludeId == some p.id))).map Post.slug

/-- `parseInt(digits, 10)` on a captured all-digit group: the decimal
value of the digit characters. -/
def parseDigits (cs : List Char) : Nat :=
  cs.foldl (fun acc c => acc * 10 + (c.toNat - 48)) 0

/-- The anchored regex `^base-(\d+)$` of `generateSlug` with its
captured number: `some n` when the slug is `base-<digits>` (at least one
digit) and `n` is the `parseInt` of the digits, else `none`.  `slugify`
output contains no regex metacharacters, so the interpolated base
matches literally; the match is expressed on the character sequences of
the strings. -/
def matchSuffix (base slug : String) : Option Nat :=
  if (base ++ "-").data.isPrefixOf slug.data then
    let rest := slug.data.drop (base ++ "-").data.length
    if !rest.isEmpty && rest.all Char.isDigit then some (parseDigits rest) else none
  else none

/-- One iteration of the maximum-suffix loop of `generateSlug` (lines
211–220): keep the matched number when it beats the accumulator. -/
def suffixStep (base : String) (acc : Nat) (s : String) : Nat :=
  match matchSuffix base s with
  | some n => if n > acc then n else acc
  | none => acc

/-- The in-memory maximum-suffix loop of `generateSlug` (lines 211–220):
fold the matched numeric suffixes to their maximum, starting at 0. -/
def maxNumericSuffix (base : String) (slugs : List String) : Nat :=
  slugs.foldl (suffixStep base) 0

/-- `generateSlug` (posts.service.ts 189–224), taking the already
slugified base (`slugify` is an external utility): return the base when
unused, else `base-(maxSuffix+1)` over the similar slugs. -/
def generateSlug (db : List Post) (baseSlug : String) (excludeId : Option Nat) : String :=
  if slugExists db baseSlug excludeId then
    baseSlug ++ "-" ++ toString (maxNumericSuffix baseSlug (findSimilarSlugs db baseSlug excludeId) + 1)
  else baseSlug

/-! ## Admin sync state (`findPostById`, posts.service.ts 284–317) -/

/-- The hash input object built at posts.service.ts 304–312. -/
structure HashInput where
  title : String
  contentJson : Option String
  summary : String
  tagIds : List Nat
  slug : String
  publishedAt : Option Nat
  readTimeInMinutes : Nat
  deriving DecidableEq, Repr

/-- The field projection `findPostById` hashes (posts.service.ts
304–312): title, contentJson, summary, tag ids, slug, publishedAt,
readTimeInMinutes. -/
def hashInputOf (p : Post) : HashInput :=
  ⟨p.title, p.contentJson, p.summary, p.tags.map Tag.id, p.slug,
   p.publishedAt, p.readTimeInMinutes⟩

/-- The admin detail view returned by `findPostById`: the row plus
`isSynced` and `hasPublicCache`. -/
structure AdminPostView where
  post : Post
  isSynced : Bool
  hasPublicCache : Bool
  deriving DecidableEq, Repr

/-- `findPostById` (posts.service.ts 284–317): look up the row, read the
raw sync-hash entry, and compute `isSynced` — for a draft, no stored
entry; otherwise equality of the stored entry with the hash of the
current row's public fields.  `calculatePostHash` is an external
deterministic hash (spec §3) and is passed in as `hash`. -/
def findPostByIdSvc (hash : HashInput → String) (kvStore : List (CacheKey × String))
    (db : List Post) (id : Nat) : Option AdminPostView :=
  match findRow db id with
  | none => none
  | some post =>
    let kvHash := kvLookup kvStore (CacheKey.syncHash post.id)
    let hasPublicCache := kvHash.isSome
    let isSynced :=
      if post.status = PostStatus.draft then !hasPublicCache
      else kvHash == some (hash (hashInputOf post))
    some ⟨post, isSynced, hasPublicCache⟩

/-! ## Effects

External actions the mutation paths issue, recorded in program order.
Deferred (`executionCtx.waitUntil`) work is kept in a separate list from
the awaited work where the distinction matters. -/

/-- An external action issued by the service. -/
inductive Effect where
  | cacheDeleteKey (k : CacheKey)
  | cacheBumpVersion (ns : String)
  | searchDeleteIndex (id : Nat)
  | cdnPurge (slug : String)
  | syncPostMedia (id : Nat) (contentJson : Option String)
  | repoStampPublishedAt (id : Nat) (t : Nat)
  | postProcessCreate (postId : Nat) (isPublished : Bool)
      (publishedAt : Option Nat) (isFuturePost : Bool)
  | scheduledTerminateAttempt (instanceId : String)
  | scheduledCreate (instanceId : String) (postId : Nat) (publishedAt : Nat)
  deriving DecidableEq, Repr

/-! ## Update (`updatePost`, posts.service.ts 323–340) -/

/-- The partial patch of `UpdatePostInput.data`: an absent field (outer
`none`) is `undefined` and leaves the column unchanged; for the nullable
columns the inner option carries the new value (`some none` sets SQL
NULL). -/
structure PostPatch where
  title : Option String
  slug : Option String
  status : Option PostStatus
  contentJson : Option (Option String)
  summary : Option String
  publishedAt : Option (Option Nat)
  readTimeInMinutes : Option Nat
  deriving DecidableEq, Repr

/-- The patch with every field absent. -/
def emptyPatch : PostPatch :=
  ⟨none, none, none, none, none, none, none⟩

/-- Apply a partial patch to a row (the repository `UPDATE ... SET` on
the present fields). -/
def applyPatch (p : Post) (patch : PostPatch) : Post :=
  { p with
    title := patch.title.getD p.title
    slug := patch.slug.getD p.slug
    status := patch.status.getD p.status
    contentJson := patch.contentJson.getD p.contentJson
    summary := patch.summary.getD p.summary
    publishedAt := patch.publishedAt.getD p.publishedAt
    readTimeInMinutes := patch.readTimeInMinutes.getD p.readTimeInMinutes }

/-- Modelled from the spec: `PostRepo.updatePost` — apply the patch to
the row with the given id and return the updated row, `none` when no
such row exists. -/
def repoUpdatePost (db : List Post) (id : Nat) (patch : PostPatch) :
    Option (List Post × Post) :=
  match findRow db id with
  | none => none
  | some p =>
    some (db.map (fun q => if q.id = id then applyPatch q patch else q), applyPatch p patch)

/-- `updatePost` (posts.service.ts 323–340): apply the partial update
(raising `Post not found` when the row is missing); when the patch
carries a `contentJson` field (`!== undefined`), defer a
`syncPostMedia` task via `waitUntil`; return the refreshed admin view.
Result: updated db, deferred effects, response body. -/
def updatePostSvc (hash : HashInput → String) (kvStore : List (CacheKey × String))
    (db : List Post) (id : Nat) (patch : PostPatch) :
    Except String (List Post × List Effect × Option AdminPostView) :=
  match repoUpdatePost db id patch with
  | none => Except.error "Post not found"
  | some (db', p') =>
    let deferred :=
      match patch.contentJson with
      | some c => [Effect.syncPostMedia p'.id c]
      | none => []
    Except.ok (db', deferred, findPostByIdSvc hash kvStore db' p'.id)

/-! ## Delete (`deletePost`, posts.service.ts 346–379) -/

/-- Result of `deletePost`: the db after the row delete, whether a row
was deleted, and the deferred cleanup batch handed to
`executionCtx.waitUntil` (a single `Promise.all` batch, modelled as the
list of its tasks in construction order). -/
structure DeletePostResult where
  db : List Post
  rowDeleted : Bool
  deferred : List Effect
  deriving DecidableEq, Repr

/-- `deletePost` (posts.service.ts 346–379): missing id → silent no-op;
otherwise delete the row, then for a published post defer the cleanup
batch — detail-cache key delete at the current `posts:detail` version,
`posts:list` version bump, search-index delete, CDN purge, sync-hash
key delete — and for any other status defer only the sync-hash key
delete. -/
def deletePostSvc (versions : List (String × Nat)) (db : List Post) (id : Nat) :
    DeletePostResult :=
  match findRow db id with
  | none => ⟨db, false, []⟩
  | some post =>
    let db' := db.filter (fun p => !(p.id == id))
    if post.status = PostStatus.published then
      let version := getVersion versions "posts:detail"
      ⟨db', true,
        [Effect.cacheDeleteKey (CacheKey.detail version post.slug),
         Effect.cacheBumpVersion "posts:list",
         Effect.searchDeleteIndex id,
         Effect.cdnPurge post.slug,
         Effect.cacheDeleteKey (CacheKey.syncHash id)]⟩
    else
      ⟨db', true, [Effect.cacheDeleteKey (CacheKey.syncHash id)]⟩

/-! ## Publish workflow (`startPostProcessWorkflow`, posts.service.ts
394–446, and `isFuturePublishDate`, utils/date.ts) -/

/-- `isFuturePublishDate` (utils/date.ts): parse the ISO timestamp —
an unparseable value (`NaN` epoch) is never in the future — and compare
the epoch strictly against `Date.now()`.  `parseDate` is the platform
`Date` parser. -/
def isFuturePublishDate (parseDate : String → Option Nat) (nowMs : Nat)
    (publishedAtISO : String) : Bool :=
  match parseDate publishedAtISO with
  | none => false
  | some t => decide (t > nowMs)

/-- The input of `startPostProcessWorkflow`. -/
structure StartInput where
  id : Nat
  status : PostStatus
  deriving DecidableEq, Repr

/-- Modelled from the spec: the platform scheduled-publish workflow
lookup + `terminate()` call, which throws when the instance is absent or
already finished; whether it throws is the environment's choice,
abstracted as `termFails`. -/
def tryTerminateScheduled (termFails : Bool) (_instanceId : String) : Except String Unit :=
  if termFails then Except.error "instance not found or already completed"
  else Except.ok ()

/-- The stamping prologue of `startPostProcessWorkflow` (lines 398–412):
for a publish request, look up the row; when its `publishedAt` is unset,
stamp it with `getCurrentMinuteEnd()` through a repository update.
Returns the (possibly updated) db, the stamped time when a stamp was
written (`publishedAtISO` freshly set), and the effective publish
timestamp (`publishedAtISO`). -/
def stampPublishedAt (db : List Post) (now : Nat) (data : StartInput) :
    List Post × Option Nat × Option Nat :=
  if data.status = PostStatus.published then
    match findRow db data.id with
    | some post =>
      match post.publishedAt with
      | none =>
        let t := currentMinuteEnd now
        (db.map (fun q => if q.id = data.id then { q with publishedAt := some t } else q),
         some t, some t)
      | some t => (db, none, some t)
    | none => (db, none, none)
  else (db, none, none)

/-- `startPostProcessWorkflow` (posts.service.ts 394–446): stamp the
publish timestamp when absent (a repository update issued before any
workflow call); create the post-process workflow instance, whose
`isFuturePost` flag compares the effective timestamp strictly against
`Date.now()` (`isFuturePublishDate` applied to a `toISOString` output
parses back to the same epoch); attempt to terminate any existing
scheduled-publish instance `post-<id>-scheduled`, discarding a failure
(`try { ... } catch {}`); finally create a new scheduled-publish
instance under that id when the request publishes at a strictly future
time. -/
def startPostProcessWorkflow (db : List Post) (now : Nat) (termFails : Bool)
    (data : StartInput) : Except String (List Post × List Effect) :=
  let s := stampPublishedAt db now data
  let publishedAt? := s.2.2
  let stampEffs :=
    match s.2.1 with
    | some t => [Effect.repoStampPublishedAt data.id t]
    | none => []
  let isFuture :=
    match publishedAt? with
    | some t => decide (t > now)
    | none => false
  let scheduledId := "post-" ++ toString data.id ++ "-scheduled"
  let _ignored := tryTerminateScheduled termFails scheduledId
  let createEffs :=
    if data.status = PostStatus.published then
      match publishedAt? with
      | some t => if t > now then [Effect.scheduledCreate scheduledId data.id t] else []
      | none => []
    else []
  Except.ok (s.1,
    stampEffs
      ++ [Effect.postProcessCreate data.id (decide (data.status = PostStatus.published))
            publishedAt? isFuture]
      ++ [Effect.scheduledTerminateAttempt scheduledId]
      ++ createEffs)

/-! ## Concrete sample data used by witnesses and examples -/

/-- A sample published row (published at epoch 0) with the given id and
slug. -/
def samplePost (id : Nat) (slug : String) : Post :=
  ⟨id, "t", slug, PostStatus.published, none, "", some 0, 1, []⟩

/-- A concrete deterministic hash for witnesses. -/
def hash0 : HashInput → String :=
  fun _ => "h"

/-! ## Theorems -/

theorem orderRelated_map_id (cachedIds : List Nat) (posts : List Post) :
    (orderRelated cachedIds posts).map Post.id
      = cachedIds.filter (fun id => posts.any (fun p => p.id == id)) := by
  induction cachedIds with
  | nil => rfl
  | cons i rest ih =>
    unfold orderRelated at ih ⊢
    simp only [List.map_cons, List.filterMap_cons, List.filter_cons]
    cases hfind : posts.find? (fun p => p.id == i) with
    | none =>
      have hany : posts.any (fun p => p.id == i) = false := by
        rw [List.any_eq_false]
        intro p hp
        simpa using List.find?_eq_none.mp hfind p hp
      rw [hany]
      simpa using ih
    | some q =>
      have hq : (q.id == i) = true := by simpa using List.find?_some hfind
      have hany : posts.any (fun p => p.id == i) = true :=
        List.any_eq_true.mpr ⟨q, List.mem_of_find?_eq_some hfind, hq⟩
      rw [hany]
      simp only [List.map_cons]
      rw [show q.id = i from by simpa using hq]
      simpa using ih

theorem orderRelated_mem (cachedIds : List Nat) (posts : List Post) :
    ∀ q ∈ orderRelated cachedIds posts, q ∈ posts := by
  intro q hq
  unfold orderRelated at hq
  simp only [List.mem_filterMap, List.mem_map] at hq
  obtain ⟨o, ⟨i, _, ho⟩, hoq⟩ := hq
  subst ho
  exact List.mem_of_find?_eq_some hoq

/-- C3: `getRelatedPosts` returns the resolved posts in exactly the
cached ID order, silently dropping every cached ID that resolved to no
post: the ids of the result are the cached sequence filtered to the
resolvable ones, every returned row is a resolved row, and on the
spec's example — cached order `[5, 2, 9]` with rows for `{2, 5}` — the
result order is `[5, 2]`. -/
theorem getRelatedPosts_order :
    (∀ (cachedIds : List Nat) (posts : List Post),
      (orderRelated cachedIds posts).map Post.id
        = cachedIds.filter (fun id => posts.any (fun p => p.id == id)))
    ∧ (∀ (cachedIds : List Nat) (posts : List Post),
        ∀ q ∈ orderRelated cachedIds posts, q ∈ posts)
    ∧ orderRelated [5, 2, 9] [samplePost 2 "b", samplePost 5 "a"]
        = [samplePost 5 "a", samplePost 2 "b"] :=
  ⟨orderRelated_map_id, orderRelated_mem, rfl⟩

/-- C9: bumping a namespace's version increments `getVersion` by
exactly one, and — since `getPostsCursor` builds its cache key as
`CacheKey.list (getVersion versions "posts:list") limit cursor tag` —
a key built from the new version differs from every key built from the
old version, so an entry stored under an old-version key is never
returned by a lookup performed with a new-version key. -/
theorem bumpVersion_invalidates (versions : List (String × Nat)) (ns : String)
    (entries : List (CacheKey × String)) (val : String)
    (limit cursor : Nat) (tag : String) (limit' cursor' : Nat) (tag' : String) :
    getVersion (bumpVersion versions ns) ns = getVersion versions ns + 1
    ∧ CacheKey.list (getVersion versions ns) limit cursor tag
        ≠ CacheKey.list (getVersion (bumpVersion versions ns) ns) limit' cursor' tag'
    ∧ kvLookup
        ((CacheKey.list (getVersion versions ns) limit cursor tag, val) :: entries)
        (CacheKey.list (getVersion (bumpVersion versions ns) ns) limit' cursor' tag')
      = kvLookup entries
          (CacheKey.list (getVersion (bumpVersion versions ns) ns) limit' cursor' tag') := by
  have hv : getVersion (bumpVersion versions ns) ns = getVersion versions ns + 1 := by
    unfold bumpVersion getVersion
    rw [List.find?_cons_of_pos _ (by simp)]
  have hne :
      CacheKey.list (getVersion versions ns) limit cursor tag
        ≠ CacheKey.list (getVersion (bumpVersion versions ns) ns) limit' cursor' tag' := by
    rw [hv]
    simp only [ne_eq, CacheKey.list.injEq, not_and]
    intro h
    omega
  refine ⟨hv, hne, ?_⟩
  unfold kvLookup
  rw [List.find?_cons_of_neg _ (by simpa using hne)]

/-- C10: `deletePost` on a missing id is a silent no-op — no error, no
row delete, no deferred cleanup — whereas `updatePost` on a missing id
raises `Post not found`. -/
theorem deletePost_missing (versions : List (String × Nat))
    (hash : HashInput → String) (kvStore : List (CacheKey × String))
    (db : List Post) (id : Nat) (patch : PostPatch)
    (h : findRow db id = none) :
    deletePostSvc versions db id = ⟨db, false, []⟩
    ∧ updatePostSvc hash kvStore db id patch = Except.error "Post not found" := by
  constructor
  · simp [deletePostSvc, h]
  · simp [updatePostSvc, repoUpdatePost, h]

theorem suffixStep_ge (base : String) (acc : Nat) (s : String) :
    acc ≤ suffixStep base acc s := by
  unfold suffixStep
  cases h : matchSuffix base s with
  | none => exact Nat.le_refl acc
  | some n =>
    dsimp only
    split <;> omega

theorem foldl_suffixStep_ge (base : String) (slugs : List String) :
    ∀ init : Nat, init ≤ slugs.foldl (suffixStep base) init := by
  induction slugs with
  | nil => intro init; exact Nat.le_refl init
  | cons a rest ih =>
    intro init
    simp only [List.foldl_cons]
    exact Nat.le_trans (suffixStep_ge base init a) (ih _)

theorem foldl_suffixStep_ub (base : String) (slugs : List String) :
    ∀ (init : Nat) (s : String) (n : Nat), s ∈ slugs → matchSuffix base s = some n →
      n ≤ slugs.foldl (suffixStep base) init := by
  induction slugs with
  | nil =>
    intro _ s _ h _
    exact absurd h (List.not_mem_nil s)
  | cons a rest ih =>
    intro init s n hmem hm
    simp only [List.foldl_cons]
    rcases List.mem_cons.mp hmem with rfl | hmem'
    · have h1 : n ≤ suffixStep base init s := by
        unfold suffixStep
        rw [hm]
        dsimp only
        split <;> omega
      exact Nat.le_trans h1 (foldl_suffixStep_ge base rest _)
    · exact ih _ s n hmem' hm

theorem foldl_suffixStep_attained (base : String) (slugs : List String) :
    ∀ init : Nat,
      slugs.foldl (suffixStep base) init = init
      ∨ ∃ s ∈ slugs, matchSuffix base s = some (slugs.foldl (suffixStep base) init) := by
  induction slugs with
  | nil => intro init; left; rfl
  | cons a rest ih =>
    intro init
    simp only [List.foldl_cons]
    rcases ih (suffixStep base init a) with h | h
    · rw [h]
      unfold suffixStep
      cases hma : matchSuffix base a with
      | none => left; rfl
      | some n =>
        dsimp only
        by_cases hgt : n > init
        · rw [if_pos hgt]
          right
          exact ⟨a, List.mem_cons_self a rest, hma⟩
        · rw [if_neg hgt]
          left
          rfl
    · right
      obtain ⟨s, hs, hm⟩ := h
      exact ⟨s, List.mem_cons_of_mem a hs, hm⟩

theorem matchSuffix_isPrefix {base s : String} {n : Nat}
    (h : matchSuffix base s = some n) :
    (base ++ "-").data.isPrefixOf s.data = true := by
  by_contra hsw
  simp only [Bool.not_eq_true] at hsw
  unfold matchSuffix at h
  rw [hsw] at h
  simp at h

/-- C1: when the base slug is already taken by another post,
`generateSlug` returns `base-(K+1)` where `K` bounds every numeric
suffix `N` of an existing anchored `base-<N>` slug of a non-excluded
post and is itself such a suffix unless no numbered variant matches
(then `K = 0`, so the first collision yields `base-1`); posts with the
excluded id take part in neither check. -/
theorem generateSlug_collision (db : List Post) (base : String) (excl : Option Nat)
    (h : slugExists db base excl = true) :
    ∃ K, generateSlug db base excl = base ++ "-" ++ toString (K + 1)
      ∧ (∀ p ∈ db, excl ≠ some p.id → ∀ n, matchSuffix base p.slug = some n → n ≤ K)
      ∧ (K = 0 ∨ ∃ p ∈ db, excl ≠ some p.id ∧ matchSuffix base p.slug = some K) := by
  refine ⟨maxNumericSuffix base (findSimilarSlugs db base excl), ?_, ?_, ?_⟩
  · simp [generateSlug, h]
  · intro p hp hex n hm
    have hsw := matchSuffix_isPrefix hm
    have hmem : p.slug ∈ findSimilarSlugs db base excl := by
      unfold findSimilarSlugs
      refine List.mem_map.mpr ⟨p, List.mem_filter.mpr ⟨hp, ?_⟩, rfl⟩
      have hx : (excl == some p.id) = false := beq_eq_false_iff_ne.mpr hex
      rw [hsw, hx]
      rfl
    exact foldl_suffixStep_ub base _ 0 p.slug n hmem hm
  · rcases foldl_suffixStep_attained base (findSimilarSlugs db base excl) 0 with h0 | hs
    · left; exact h0
    · right
      obtain ⟨s, hs, hm⟩ := hs
      unfold findSimilarSlugs at hs
      obtain ⟨p, hpf, rfl⟩ := List.mem_map.mp hs
      have hpc := List.mem_filter.mp hpf
      have h2 := hpc.2
      simp only [Bool.and_eq_true, Bool.not_eq_true'] at h2
      exact ⟨p, hpc.1, beq_eq_false_iff_ne.mp h2.2, hm⟩

/-- The db of the out-of-order example: the base slug `title` is taken
and only `title-5` exists among the numbered variants. -/
def slugDb : List Post :=
  [samplePost 1 "title", samplePost 2 "title-5"]

theorem generateSlug_collision_witness :
    slugExists slugDb "title" none = true
    ∧ (∃ K, generateSlug slugDb "title" none = "title" ++ "-" ++ toString (K + 1)
        ∧ (∀ p ∈ slugDb, (none : Option Nat) ≠ some p.id →
            ∀ n, matchSuffix "title" p.slug = some n → n ≤ K)
        ∧ (K = 0 ∨ ∃ p ∈ slugDb, (none : Option Nat) ≠ some p.id
            ∧ matchSuffix "title" p.slug = some K))
    ∧ generateSlug slugDb "title" none = "title-6"
    ∧ generateSlug [samplePost 1 "title"] "title" none = "title-1" :=
  ⟨by decide, generateSlug_collision slugDb "title" none (by decide),
   by decide, by decide⟩

theorem deletePost_missing_witness :
    findRow [] 0 = none
    ∧ (deletePostSvc [] [] 0 = ⟨[], false, []⟩
        ∧ updatePostSvc hash0 [] [] 0 emptyPatch = Except.error "Post not found") :=
  ⟨rfl, deletePost_missing [] hash0 [] [] 0 emptyPatch rfl⟩

/-- C2: `findPostById` reports `isSynced` as: for a draft, no sync-hash
entry is stored for the post's id; for any other status, the stored
entry equals the hash freshly computed over the current row's title,
contentJson, summary, tag ids, slug, publishedAt and
readTimeInMinutes. -/
theorem findPostById_isSynced (hash : HashInput → String)
    (kvStore : List (CacheKey × String)) (db : List Post) (id : Nat)
    (view : AdminPostView)
    (h : findPostByIdSvc hash kvStore db id = some view) :
    (view.post.status = PostStatus.draft →
      (view.isSynced = true ↔ kvLookup kvStore (CacheKey.syncHash view.post.id) = none))
    ∧ (view.post.status ≠ PostStatus.draft →
      (view.isSynced = true ↔
        kvLookup kvStore (CacheKey.syncHash view.post.id)
          = some (hash (hashInputOf view.post)))) := by
  unfold findPostByIdSvc at h
  cases hf : findRow db id with
  | none =>
    rw [hf] at h
    exact absurd h (by simp)
  | some post =>
    rw [hf] at h
    simp only [Option.some.injEq] at h
    subst h
    constructor
    · intro hd
      simp only at hd ⊢
      rw [if_pos hd]
      cases kvLookup kvStore (CacheKey.syncHash post.id) <;> simp
    · intro hd
      simp only at hd ⊢
      rw [if_neg hd]
      simp [beq_iff_eq]

/-- A row used by the C2 witness: published, no stored sync hash. -/
def syncedView : AdminPostView :=
  ⟨samplePost 1 "a", false, false⟩

theorem findPostById_isSynced_witness :
    findPostByIdSvc hash0 [] [samplePost 1 "a"] 1 = some syncedView
    ∧ ((syncedView.post.status = PostStatus.draft →
        (syncedView.isSynced = true ↔
          kvLookup [] (CacheKey.syncHash syncedView.post.id) = none))
      ∧ (syncedView.post.status ≠ PostStatus.draft →
        (syncedView.isSynced = true ↔
          kvLookup [] (CacheKey.syncHash syncedView.post.id)
            = some (hash0 (hashInputOf syncedView.post))))) :=
  ⟨rfl, findPostById_isSynced hash0 [] [samplePost 1 "a"] 1 syncedView rfl⟩

theorem notVisible_where (now : Nat) (p : Post)
    (h : p.status ≠ PostStatus.published
      ∨ ∃ t, p.publishedAt = some t ∧ currentMinuteEnd now < t) :
    postMatchesWhere now ⟨none, true, none⟩ p = false := by
  unfold postMatchesWhere
  rcases h with hs | ⟨t, ht, hlt⟩
  · simp [hs]
  · rw [ht]
    simp
    omega

/-- C4: a post that is not published, or whose `publishedAt` is later
than now — the cutoff being the end of the current minute — appears
neither in `getPostsCursor` results nor as a `findPostBySlug` result
(both run with `publicOnly = true`); the cutoff is at least `now` and
lies in the same minute. -/
theorem publicVisibility (versions : List (String × Nat)) (db : List Post)
    (now : Nat) (p : Post)
    (h : p.status ≠ PostStatus.published
      ∨ ∃ t, p.publishedAt = some t ∧ currentMinuteEnd now < t) :
    (∀ limit cursor tagName, p ∉ getPostsCursorSvc versions db now limit cursor tagName)
    ∧ (∀ slug, findPostBySlugSvc versions db now slug ≠ some p)
    ∧ now ≤ currentMinuteEnd now
    ∧ currentMinuteEnd now / 60000 = now / 60000 := by
  have hw := notVisible_where now p h
  refine ⟨?_, ?_, ?_, ?_⟩
  · intro limit cursor tagName hmem
    unfold getPostsCursorSvc cacheAside repoGetPostsCursor at hmem
    have h2 := List.mem_of_mem_drop (List.mem_of_mem_take hmem)
    have h3 := (List.mem_filter.mp h2).2
    rw [Bool.and_eq_true, hw] at h3
    exact Bool.false_ne_true h3.1
  · intro slug hfind
    unfold findPostBySlugSvc cacheAside repoFindPostBySlug at hfind
    have hpred := List.find?_some hfind
    simp only [Bool.and_eq_true] at hpred
    have hcontra := hpred.2
    rw [hw] at hcontra
    simp at hcontra
  · unfold currentMinuteEnd
    omega
  · unfold currentMinuteEnd
    omega

/-- A draft row for the C4 witness. -/
def draftPost : Post :=
  ⟨7, "t", "d", PostStatus.draft, none, "", some 0, 1, []⟩

theorem publicVisibility_witness :
    (draftPost.status ≠ PostStatus.published
      ∨ ∃ t, draftPost.publishedAt = some t ∧ currentMinuteEnd 0 < t)
    ∧ ((∀ limit cursor tagName,
          draftPost ∉ getPostsCursorSvc [] [draftPost] 0 limit cursor tagName)
        ∧ (∀ slug, findPostBySlugSvc [] [draftPost] 0 slug ≠ some draftPost)
        ∧ 0 ≤ currentMinuteEnd 0
        ∧ currentMinuteEnd 0 / 60000 = 0 / 60000) :=
  ⟨Or.inl (by decide), publicVisibility [] [draftPost] 0 draftPost (Or.inl (by decide))⟩

/-- C5: deleting an existing post removes the row and defers, in one
concurrently-fired batch, exactly five cleanup tasks when the post was
published — versioned detail-key delete for its slug, `posts:list`
version bump, search-index delete, CDN purge, sync-hash key delete —
and only the sync-hash key delete for any other status. -/
theorem deletePost_cascade (versions : List (String × Nat)) (db : List Post)
    (id : Nat) (post : Post) (h : findRow db id = some post) :
    (deletePostSvc versions db id).rowDeleted = true
    ∧ (deletePostSvc versions db id).db = db.filter (fun p => !(p.id == id))
    ∧ (post.status = PostStatus.published →
        (deletePostSvc versions db id).deferred =
          [Effect.cacheDeleteKey
             (CacheKey.detail (getVersion versions "posts:detail") post.slug),
           Effect.cacheBumpVersion "posts:list",
           Effect.searchDeleteIndex id,
           Effect.cdnPurge post.slug,
           Effect.cacheDeleteKey (CacheKey.syncHash id)])
    ∧ (post.status ≠ PostStatus.published →
        (deletePostSvc versions db id).deferred
          = [Effect.cacheDeleteKey (CacheKey.syncHash id)]) := by
  by_cases hs : post.status = PostStatus.published
  · simp [deletePostSvc, h, hs]
  · simp [deletePostSvc, h, hs]

theorem deletePost_cascade_witness :
    findRow [samplePost 1 "s"] 1 = some (samplePost 1 "s")
    ∧ ((deletePostSvc [] [samplePost 1 "s"] 1).rowDeleted = true
      ∧ (deletePostSvc [] [samplePost 1 "s"] 1).db
          = List.filter (fun p => !(p.id == 1)) [samplePost 1 "s"]
      ∧ ((samplePost 1 "s").status = PostStatus.published →
          (deletePostSvc [] [samplePost 1 "s"] 1).deferred =
            [Effect.cacheDeleteKey
               (CacheKey.detail (getVersion [] "posts:detail") (samplePost 1 "s").slug),
             Effect.cacheBumpVersion "posts:list",
             Effect.searchDeleteIndex 1,
             Effect.cdnPurge (samplePost 1 "s").slug,
             Effect.cacheDeleteKey (CacheKey.syncHash 1)])
      ∧ ((samplePost 1 "s").status ≠ PostStatus.published →
          (deletePostSvc [] [samplePost 1 "s"] 1).deferred
            = [Effect.cacheDeleteKey (CacheKey.syncHash 1)])) :=
  ⟨rfl, deletePost_cascade [] [samplePost 1 "s"] 1 (samplePost 1 "s") rfl⟩

/-- C6: `startPostProcessWorkflow` always attempts to terminate the
scheduled-publish instance `post-<id>-scheduled`, a termination failure
changes nothing and never propagates (the call returns `ok` either
way, with identical output), and a new scheduled-publish instance is
created under that same id exactly when the requested status is
published and the effective publish time is strictly in the future. -/
theorem startWorkflow_cancelAndReschedule (db : List Post) (now : Nat)
    (data : StartInput) :
    startPostProcessWorkflow db now true data
      = startPostProcessWorkflow db now false data
    ∧ ∀ tf : Bool, ∃ db' effs,
        startPostProcessWorkflow db now tf data = Except.ok (db', effs)
        ∧ Effect.scheduledTerminateAttempt
            ("post-" ++ toString data.id ++ "-scheduled") ∈ effs
        ∧ ∀ sid pid t, Effect.scheduledCreate sid pid t ∈ effs ↔
            (sid = "post-" ++ toString data.id ++ "-scheduled" ∧ pid = data.id
              ∧ data.status = PostStatus.published
              ∧ (stampPublishedAt db now data).2.2 = some t ∧ now < t) := by
  constructor
  · rfl
  · intro tf
    refine ⟨_, _, rfl, ?_, ?_⟩
    · simp [startPostProcessWorkflow]
    · intro sid pid t
      by_cases hpub : data.status = PostStatus.published
      · cases hpa : (stampPublishedAt db now data).2.2 with
        | none =>
          cases hst : (stampPublishedAt db now data).2.1 with
          | none => simp [startPostProcessWorkflow, hpub, hpa, hst]
          | some u => simp [startPostProcessWorkflow, hpub, hpa, hst]
        | some t0 =>
          by_cases hfut : t0 > now
          · cases hst : (stampPublishedAt db now data).2.1 with
            | none =>
              simp only [startPostProcessWorkflow, hpub, hpa, hst, if_pos hfut]
              simp [hpub]
              intro hsid hpid
              constructor
              · rintro rfl
                exact ⟨rfl, hfut⟩
              · rintro ⟨h, -⟩
                omega
            | some u =>
              simp only [startPostProcessWorkflow, hpub, hpa, hst, if_pos hfut]
              simp [hpub]
              intro hsid hpid
              constructor
              · rintro rfl
                exact ⟨rfl, hfut⟩
              · rintro ⟨h, -⟩
                omega
          · cases hst : (stampPublishedAt db now data).2.1 with
            | none =>
              simp only [startPostProcessWorkflow, hpub, hpa, hst, if_neg hfut]
              simp [hpub]
              rintro rfl rfl rfl
              omega
            | some u =>
              simp only [startPostProcessWorkflow, hpub, hpa, hst, if_neg hfut]
              simp [hpub]
              rintro rfl rfl rfl
              omega
      · cases hpa : (stampPublishedAt db now data).2.2 with
        | none =>
          cases hst : (stampPublishedAt db now data).2.1 with
          | none => simp [startPostProcessWorkflow, hpub, hpa, hst]
          | some u => simp [startPostProcessWorkflow, hpub, hpa, hst]
        | some t0 =>
          cases hst : (stampPublishedAt db now data).2.1 with
          | none => simp [startPostProcessWorkflow, hpub, hpa, hst]
          | some u => simp [startPostProcessWorkflow, hpub, hpa, hst]

/-- C7: on a publish request for an existing post, when the row's
`publishedAt` is unset `startPostProcessWorkflow` stamps it with the
current-minute end via a repository update issued before the
post-process workflow launch; when it is set the row is unchanged and
that timestamp is the effective one; the future check compares the
effective timestamp against now; and `isFuturePublishDate` treats an
unparseable timestamp as not in the future. -/
theorem startWorkflow_stampsPublishedAt (db : List Post) (now : Nat) (tf : Bool)
    (data : StartInput) (post : Post)
    (h1 : data.status = PostStatus.published)
    (h2 : findRow db data.id = some post) :
    (post.publishedAt = none →
      startPostProcessWorkflow db now tf data =
        Except.ok
          (db.map (fun q =>
            if q.id = data.id
            then { q with publishedAt := some (currentMinuteEnd now) } else q),
           [Effect.repoStampPublishedAt data.id (currentMinuteEnd now),
            Effect.postProcessCreate data.id true (some (currentMinuteEnd now))
              (decide (currentMinuteEnd now > now)),
            Effect.scheduledTerminateAttempt
              ("post-" ++ toString data.id ++ "-scheduled")]
           ++ (if currentMinuteEnd now > now
               then [Effect.scheduledCreate
                       ("post-" ++ toString data.id ++ "-scheduled")
                       data.id (currentMinuteEnd now)]
               else [])))
    ∧ (∀ t, post.publishedAt = some t →
        startPostProcessWorkflow db now tf data =
          Except.ok
            (db,
             [Effect.postProcessCreate data.id true (some t) (decide (t > now)),
              Effect.scheduledTerminateAttempt
                ("post-" ++ toString data.id ++ "-scheduled")]
             ++ (if t > now
                 then [Effect.scheduledCreate
                         ("post-" ++ toString data.id ++ "-scheduled") data.id t]
                 else [])))
    ∧ (∀ (parse : String → Option Nat) (nowMs : Nat) (s : String),
        parse s = none → isFuturePublishDate parse nowMs s = false) := by
  refine ⟨?_, ?_, ?_⟩
  · intro hpa
    have hs : stampPublishedAt db now data =
        (db.map (fun q =>
          if q.id = data.id
          then { q with publishedAt := some (currentMinuteEnd now) } else q),
         some (currentMinuteEnd now), some (currentMinuteEnd now)) := by
      simp [stampPublishedAt, h1, h2, hpa]
    simp [startPostProcessWorkflow, hs, h1]
  · intro t hpa
    have hs : stampPublishedAt db now data = (db, none, some t) := by
      simp [stampPublishedAt, h1, h2, hpa]
    simp [startPostProcessWorkflow, hs, h1]
  · intro parse nowMs s hp
    simp [isFuturePublishDate, hp]

/-- A published-status row with no publish timestamp yet, for the C7
witness. -/
def unstampedPost : Post :=
  ⟨3, "t", "s", PostStatus.published, none, "", none, 1, []⟩

theorem startWorkflow_stampsPublishedAt_witness :
    (StartInput.mk 3 PostStatus.published).status = PostStatus.published
    ∧ findRow [unstampedPost] (StartInput.mk 3 PostStatus.published).id
        = some unstampedPost
    ∧ ((unstampedPost.publishedAt = none →
        startPostProcessWorkflow [unstampedPost] 0 false (StartInput.mk 3 PostStatus.published) =
          Except.ok
            ([unstampedPost].map (fun q =>
              if q.id = (StartInput.mk 3 PostStatus.published).id
              then { q with publishedAt := some (currentMinuteEnd 0) } else q),
             [Effect.repoStampPublishedAt (StartInput.mk 3 PostStatus.published).id
                (currentMinuteEnd 0),
              Effect.postProcessCreate (StartInput.mk 3 PostStatus.published).id true
                (some (currentMinuteEnd 0)) (decide (currentMinuteEnd 0 > 0)),
              Effect.scheduledTerminateAttempt
                ("post-" ++ toString (StartInput.mk 3 PostStatus.published).id ++ "-scheduled")]
             ++ (if currentMinuteEnd 0 > 0
                 then [Effect.scheduledCreate
                         ("post-" ++ toString (StartInput.mk 3 PostStatus.published).id ++ "-scheduled")
                         (StartInput.mk 3 PostStatus.published).id (currentMinuteEnd 0)]
                 else [])))
      ∧ (∀ t, unstampedPost.publishedAt = some t →
          startPostProcessWorkflow [unstampedPost] 0 false (StartInput.mk 3 PostStatus.published) =
            Except.ok
              ([unstampedPost],
               [Effect.postProcessCreate (StartInput.mk 3 PostStatus.published).id true
                  (some t) (decide (t > 0)),
                Effect.scheduledTerminateAttempt
                  ("post-" ++ toString (StartInput.mk 3 PostStatus.published).id ++ "-scheduled")]
               ++ (if t > 0
                   then [Effect.scheduledCreate
                           ("post-" ++ toString (StartInput.mk 3 PostStatus.published).id ++ "-scheduled")
                           (StartInput.mk 3 PostStatus.published).id t]
                   else [])))
      ∧ (∀ (parse : String → Option Nat) (nowMs : Nat) (s : String),
          parse s = none → isFuturePublishDate parse nowMs s = false)) :=
  ⟨rfl, rfl,
   startWorkflow_stampsPublishedAt [unstampedPost] 0 false
     (StartInput.mk 3 PostStatus.published) unstampedPost rfl rfl⟩

/-- The row and patch of the C8 counterexample: the patch carries a
`contentJson` field whose value equals the stored content, so the
content does not change. -/
def cPost : Post :=
  ⟨1, "t", "s", PostStatus.draft, some "c", "", none, 1, []⟩

/-- The C8 counterexample patch: `contentJson` present and equal to the
stored content. -/
def cPatch : PostPatch :=
  ⟨none, none, none, some (some "c"), none, none, none⟩

/-- The admin view `updatePost` returns for the C8 counterexample. -/
def cView : AdminPostView :=
  ⟨cPost, true, false⟩

/-- C8 counterexample: an update whose patch carries `contentJson` equal
to the stored content leaves the database unchanged — the update's
content did NOT change — yet the media-sync task is scheduled,
refuting "scheduled if and only if the update's content changed". -/
theorem updatePost_mediaSync_cex :
    updatePostSvc hash0 [] [cPost] 1 cPatch
      = Except.ok ([cPost], [Effect.syncPostMedia 1 (some "c")], some cView)
    ∧ applyPatch cPost cPatch = cPost :=
  ⟨rfl, rfl⟩

/-- C8 (amended): `updatePost` applies the partial update, and the
media-reference resynchronization task is deferred (fire-and-forget)
if and only if the patch carries a `contentJson` field — even when the
carried value equals the stored content; a patch without a content
field triggers no media sync. -/
theorem updatePost_mediaSync (hash : HashInput → String)
    (kvStore : List (CacheKey × String)) (db : List Post) (id : Nat)
    (patch : PostPatch) (db' : List Post) (effs : List Effect)
    (view : Option AdminPostView)
    (h : updatePostSvc hash kvStore db id patch = Except.ok (db', effs, view)) :
    db' = db.map (fun q => if q.id = id then applyPatch q patch else q)
    ∧ ((∃ c, Effect.syncPostMedia id c ∈ effs) ↔ patch.contentJson.isSome = true)
    ∧ (patch.contentJson = none → effs = []) := by
  unfold updatePostSvc repoUpdatePost at h
  cases hf : findRow db id with
  | none =>
    rw [hf] at h
    exact absurd h (by simp)
  | some p =>
    rw [hf] at h
    have hid : p.id = id := by
      have := List.find?_some hf
      simpa using this
    cases hc : patch.contentJson with
    | none =>
      rw [hc] at h
      simp only [Except.ok.injEq, Prod.mk.injEq] at h
      obtain ⟨hdb, heff, -⟩ := h
      refine ⟨hdb.symm, ?_, fun _ => heff.symm⟩
      rw [← heff]
      simp
    | some c =>
      rw [hc] at h
      simp only [Except.ok.injEq, Prod.mk.injEq] at h
      obtain ⟨hdb, heff, -⟩ := h
      refine ⟨hdb.symm, ?_, ?_⟩
      · rw [← heff]
        have hidp : (applyPatch p patch).id = id := by
          simp [applyPatch, hid]
        simp [hidp]
      · intro hnone
        exact absurd hnone (by simp)

theorem updatePost_mediaSync_witness :
    updatePostSvc hash0 [] [cPost] 1 cPatch
      = Except.ok ([cPost], [Effect.syncPostMedia 1 (some "c")], some cView)
    ∧ (([cPost] : List Post)
        = [cPost].map (fun q => if q.id = 1 then applyPatch q cPatch else q)
      ∧ ((∃ c, Effect.syncPostMedia 1 c ∈ [Effect.syncPostMedia 1 (some "c")])
          ↔ cPatch.contentJson.isSome = true)
      ∧ (cPatch.contentJson = none
          → [Effect.syncPostMedia 1 (some "c")] = ([] : List Effect))) :=
  ⟨rfl,
   updatePost_mediaSync hash0 [] [cPost] 1 cPatch [cPost]
     [Effect.syncPostMedia 1 (some "c")] (some cView) rfl⟩

end Blog
